import Mathlib

/-!
Verification development for the Watson MCP Router.

The definitions below are a shallow embedding of the router's TypeScript
source:

* `Json`, `getField`, `jsTruthy`, … model the JavaScript values that reach
  `JSON.parse` / `JSON.stringify` and the property accesses performed on them;
* the `Transport` section embeds the inbound data handler of
  `CustomStdioClientTransport` (serverManager.ts): buffering, the
  newline-split loop, per-line trim / skip / `JSON.parse`, the
  `structuredContent: null → {}` rewrite, and the message/error callbacks;
* the `Manager` section embeds `ServerManager`: capability discovery,
  unified-name construction (`${serverName}_${name}`), the registry arrays,
  the `close`-handler (`spawnedServers.delete` + `rebuildUnifiedCollections`)
  and the asynchronous re-listing that the rebuild schedules;
* the `Dispatch` section embeds the proxy handlers and registrations of
  `main()` in index.ts (tools, resources, prompts, and the extra "add" tool).

JavaScript strings are embedded as `List Char`; numbers as `Int`;
fallible operations return `Option` / `Except`.
-/

namespace WatsonRouter

/-! ## JSON values

Embedding of the JavaScript values produced by `JSON.parse`.  (`JSON.parse`
never yields `undefined`; objects parsed from JSON have distinct keys, but the
type does not enforce that.) -/

inductive Json where
  | null
  | bool (b : Bool)
  | num (n : Int)
  | str (s : String)
  | arr (elems : List Json)
  | obj (fields : List (String × Json))
deriving Repr

/-- Property read `v.k` on a JavaScript value: `some` when the property is
present, `none` standing for `undefined` (absent property, or a read on a
non-object). -/
def getField (v : Json) (k : String) : Option Json :=
  match v with
  | .obj fields => lookupField fields k
  | _ => none
where
  lookupField : List (String × Json) → String → Option Json
    | [], _ => none
    | (k', x) :: rest, k => if k' = k then some x else lookupField rest k

/-- JavaScript truthiness of a (JSON-representable) value. -/
def jsTruthy : Json → Bool
  | .null => false
  | .bool b => b
  | .num n => n != 0
  | .str s => s ≠ ""
  | .arr _ => true
  | .obj _ => true

/-- Property write `v.k = x` on an object's field list: overwrites the first
binding of `k` in place, appends when absent (JavaScript assignment keeps the
property's position). -/
def setField : List (String × Json) → String → Json → List (String × Json)
  | [], k, x => [(k, x)]
  | (k', y) :: rest, k, x =>
      if k' = k then (k, x) :: rest else (k', y) :: setField rest k x

/-- Read along a path of property names. -/
def getPath (v : Json) : List String → Option Json
  | [] => some v
  | k :: ks =>
      match getField v k with
      | some w => getPath w ks
      | none => none

/-! ## CustomStdioClientTransport — inbound data handler

From serverManager.ts (`CustomStdioClientTransport`).  The handler appends the
chunk to `_buffer`, then loops: find the first `'\n'`, take the prefix,
`trim()` it, drop empty lines, `JSON.parse` it; a parsed `result` message with
`structuredContent === null` has that field rewritten to `{}`; parse failures
invoke the error callback and processing continues with the next line. -/

/-- The guard
`message && message.jsonrpc === "2.0" && message.result && message.result.structuredContent === null`
of the data handler. -/
def isResultNullSC (m : Json) : Bool :=
  jsTruthy m &&
  (match getField m "jsonrpc" with
   | some (.str v) => v = "2.0"
   | _ => false) &&
  (match getField m "result" with
   | some r =>
       jsTruthy r &&
       (match getField r "structuredContent" with
        | some .null => true
        | _ => false)
   | none => false)

/-- The assignment `message.result.structuredContent = {}` (performed only
when `isResultNullSC` holds, where `message` and `message.result` are
objects). -/
def setResultSC (m : Json) : Json :=
  match m with
  | .obj fields =>
      .obj (setField fields "result"
        (match getField m "result" with
         | some (.obj rfields) => .obj (setField rfields "structuredContent" (.obj []))
         | some r => r
         | none => .null))
  | _ => m

/-- The `structuredContent: null → {}` correction applied to every parsed
inbound message before it is handed to `onmessage`. -/
def coerceSC (m : Json) : Json :=
  if isResultNullSC m then setResultSC m else m

/-- Observable output of the data handler: a delivered message
(`_onmessageCallback`) or a reported decode failure (`_onerrorCallback`,
carrying the offending line). -/
inductive Ev where
  | msg (m : Json)
  | err (line : List Char)
deriving Repr

/-- Whitespace for `String.prototype.trim` (the characters relevant to this
transport; the full JavaScript class also has exotic Unicode spaces). -/
def isWsChar (c : Char) : Bool :=
  c = ' ' || c = '\t' || c = '\n' || c = '\r'

/-- `line.trim()` on an embedded JavaScript string. -/
def trimChars (l : List Char) : List Char :=
  ((l.dropWhile isWsChar).reverse.dropWhile isWsChar).reverse

/-- One iteration body of the data-handler loop, for an extracted line:
`trim`, skip if empty, `JSON.parse` (abstracted as `decode`), apply the
`structuredContent` correction, deliver; on parse failure report the error
and continue. -/
def processLine (decode : List Char → Option Json) (line : List Char) : List Ev :=
  let t := trimChars line
  if t = [] then []
  else
    match decode t with
    | some m => [.msg (coerceSC m)]
    | none => [.err t]

/-- The `while ((newlineIndex = this._buffer.indexOf('\n')) !== -1)` loop's
line extraction: splits the buffer at every `'\n'`, returning the complete
lines (in order) and the residual tail that stays buffered. -/
def extractLines : List Char → List (List Char) × List Char
  | [] => ([], [])
  | c :: cs =>
    let p := extractLines cs
    if c = '\n' then
      ([] :: p.1, p.2)
    else
      match p.1 with
      | [] => ([], c :: p.2)
      | l :: ls => ((c :: l) :: ls, p.2)

/-- The whole `'data'` handler: append the chunk to the buffer, process every
complete line, keep the residual as the new buffer.  Returns the new buffer
and the emitted events in order. -/
def onData (decode : List Char → Option Json) (buffer chunk : List Char) :
    List Char × List Ev :=
  let combined := buffer ++ chunk
  ((extractLines combined).2, ((extractLines combined).1).flatMap (processLine decode))

/-- Feeding a sequence of chunks to the transport, starting from a given
buffer; accumulates the delivered events. -/
def feed (decode : List Char → Option Json) (buffer : List Char) :
    List (List Char) → List Char × List Ev
  | [] => (buffer, [])
  | chunk :: rest =>
      let step := onData decode buffer chunk
      let tail := feed decode step.1 rest
      (tail.1, step.2 ++ tail.2)

/-- The byte stream produced by a child that writes each message as
`JSON.stringify(m) + "\n"` (the `send` framing, used here for the inbound
direction of a well-behaved child). -/
def encodeStream (encode : Json → List Char) : List Json → List Char
  | [] => []
  | m :: ms => encode m ++ '\n' :: encodeStream encode ms

/-! ### Buffering lemmas

Line extraction is a left-to-right stream: processing `a ++ b` is processing
`a` and then processing `b` starting from `a`'s residual.  Hence the events
the transport emits depend only on the concatenation of the chunks, not on
how the byte stream was cut. -/

theorem extractLines_no_newline (x : List Char) (h : '\n' ∉ x) :
    extractLines x = ([], x) := by
  induction x with
  | nil => rfl
  | cons c cs ih =>
    have hc : c ≠ '\n' := fun hcn => h (hcn ▸ List.mem_cons_self c cs)
    have ih' := ih (fun hm => h (List.mem_cons_of_mem c hm))
    simp [extractLines, hc, ih']

/-- When no complete line was found, the residual is the whole input. -/
theorem extractLines_fst_nil (x : List Char) (h : (extractLines x).1 = []) :
    (extractLines x).2 = x := by
  induction x with
  | nil => rfl
  | cons c cs ih =>
    by_cases hc : c = '\n'
    · simp [extractLines, hc] at h
    · cases hcs : (extractLines cs).1 with
      | nil =>
        have := ih hcs
        simp [extractLines, hc, hcs, this]
      | cons l ls =>
        simp [extractLines, hc, hcs] at h

theorem no_newline_residual (x : List Char) : '\n' ∉ (extractLines x).2 := by
  induction x with
  | nil => simp [extractLines]
  | cons c cs ih =>
    by_cases hc : c = '\n'
    · simpa [extractLines, hc] using ih
    · cases h : (extractLines cs).1 with
      | nil =>
        have hr : (extractLines cs).2 = cs := extractLines_fst_nil cs h
        rw [hr] at ih
        simp only [extractLines, if_neg hc, h]
        intro hmem
        rcases List.mem_cons.mp hmem with heq | hmem'
        · exact hc heq.symm
        · exact ih (hr ▸ hmem')
      | cons l ls =>
        simpa [extractLines, hc, h] using ih

theorem extractLines_append (a b : List Char) :
    extractLines (a ++ b) =
      ((extractLines a).1 ++ (extractLines ((extractLines a).2 ++ b)).1,
       (extractLines ((extractLines a).2 ++ b)).2) := by
  induction a with
  | nil => simp [extractLines]
  | cons c cs ih =>
    have ih1 := congrArg Prod.fst ih
    have ih2 := congrArg Prod.snd ih
    simp only at ih1 ih2
    by_cases hc : c = '\n'
    · simp [extractLines, hc, ih1, ih2]
    · cases h : (extractLines cs).1 with
      | nil =>
        have hres : (extractLines cs).2 = cs := extractLines_fst_nil cs h
        have h1 : (extractLines (c :: cs)).1 = [] := by simp [extractLines, hc, h]
        have h2 : (extractLines (c :: cs)).2 = c :: cs := by simp [extractLines, hc, h, hres]
        rw [h1, h2, List.nil_append]
      | cons l ls =>
        rw [h] at ih1
        have h1 : (extractLines (c :: cs)).1 = (c :: l) :: ls := by simp [extractLines, hc, h]
        have h2 : (extractLines (c :: cs)).2 = (extractLines cs).2 := by simp [extractLines, hc, h]
        rw [h1, h2]
        show extractLines (c :: (cs ++ b)) = _
        simp only [extractLines, List.append_eq, if_neg hc, ih1, List.cons_append, ih2]

theorem onData_append (decode : List Char → Option Json) (st a b : List Char) :
    onData decode st (a ++ b) =
      ((onData decode (onData decode st a).1 b).1,
       (onData decode st a).2 ++ (onData decode (onData decode st a).1 b).2) := by
  simp only [onData]
  rw [show st ++ (a ++ b) = (st ++ a) ++ b by simp,
      extractLines_append (st ++ a) b]
  simp [List.flatMap_append]

/-- Feeding chunks one by one (from a newline-free buffer, which every
residual buffer is) is the same as feeding their concatenation in one chunk:
the transport's output does not depend on how the byte stream is cut. -/
theorem feed_eq_onData_flatten (decode : List Char → Option Json)
    (st : List Char) (hst : '\n' ∉ st) (chunks : List (List Char)) :
    feed decode st chunks = onData decode st chunks.flatten := by
  induction chunks generalizing st with
  | nil =>
    simp [feed, onData, extractLines_no_newline st hst]
  | cons c cs ih =>
    have ih' := ih (onData decode st c).1 (by simpa [onData] using no_newline_residual (st ++ c))
    simp only [feed, List.flatten_cons, ih', onData_append]

/-- A line with no `'\n'` followed by a newline is extracted whole. -/
theorem extractLines_line (l rest : List Char) (h : '\n' ∉ l) :
    extractLines (l ++ '\n' :: rest) =
      (l :: (extractLines rest).1, (extractLines rest).2) := by
  induction l with
  | nil => simp [extractLines]
  | cons c cs ih =>
    have hc : c ≠ '\n' := fun hcn => h (hcn ▸ List.mem_cons_self c cs)
    have ih' := ih (fun hm => h (List.mem_cons_of_mem c hm))
    have ih1 := congrArg Prod.fst ih'
    have ih2 := congrArg Prod.snd ih'
    simp only at ih1 ih2
    simp [List.cons_append, extractLines, hc, ih1, ih2]

/-- Processing a stream of newline-terminated lines (none containing a
newline) from an empty buffer emits the per-line events in order and leaves
the buffer empty. -/
theorem onData_lines (decode : List Char → Option Json) (lines : List (List Char))
    (hnl : ∀ l ∈ lines, '\n' ∉ l) :
    onData decode [] ((lines.map (fun l => l ++ ['\n'])).flatten) =
      ([], lines.flatMap (processLine decode)) := by
  induction lines with
  | nil => simp [onData, extractLines]
  | cons l ls ih =>
    have hl : '\n' ∉ l := hnl l (List.mem_cons_self l ls)
    have ih' := ih (fun x hx => hnl x (List.mem_cons_of_mem l hx))
    have ih1 := congrArg Prod.fst ih'
    have ih2 := congrArg Prod.snd ih'
    simp only [onData, List.nil_append] at ih1 ih2 ⊢
    have : (l ++ ['\n']) ++ ((ls.map (fun l => l ++ ['\n'])).flatten) =
        l ++ '\n' :: ((ls.map (fun l => l ++ ['\n'])).flatten) := by simp
    rw [List.map_cons, List.flatten_cons, this,
        extractLines_line l _ hl]
    simp only [List.flatMap_cons, ih1, ih2]

theorem encodeStream_eq_flatten (encode : Json → List Char) (ms : List Json) :
    encodeStream encode ms = ((ms.map encode).map (fun l => l ++ ['\n'])).flatten := by
  induction ms with
  | nil => rfl
  | cons m ms ih => simp [encodeStream, ih]

theorem flatMap_processLine_encode (decode : List Char → Option Json)
    (encode : Json → List Char) (ms : List Json)
    (htrim : ∀ m ∈ ms, trimChars (encode m) = encode m)
    (hne : ∀ m ∈ ms, encode m ≠ [])
    (hdec : ∀ m ∈ ms, decode (encode m) = some m) :
    (ms.map encode).flatMap (processLine decode) =
      ms.map (fun m => Ev.msg (coerceSC m)) := by
  induction ms with
  | nil => rfl
  | cons m ms ih =>
    have hm : m ∈ m :: ms := List.mem_cons_self m ms
    have ih' := ih
      (fun x hx => htrim x (List.mem_cons_of_mem m hx))
      (fun x hx => hne x (List.mem_cons_of_mem m hx))
      (fun x hx => hdec x (List.mem_cons_of_mem m hx))
    simp only [List.map_cons, List.flatMap_cons, ih']
    rw [processLine, htrim m hm]
    simp [hne m hm, hdec m hm]

/-- Processing a stream of newline-terminated encoded messages delivers
exactly those messages, in order, each passed through the
`structuredContent` correction, and leaves the buffer empty. -/
theorem onData_encodeStream (decode : List Char → Option Json)
    (encode : Json → List Char) (ms : List Json)
    (hnl : ∀ m ∈ ms, '\n' ∉ encode m)
    (htrim : ∀ m ∈ ms, trimChars (encode m) = encode m)
    (hne : ∀ m ∈ ms, encode m ≠ [])
    (hdec : ∀ m ∈ ms, decode (encode m) = some m) :
    onData decode [] (encodeStream encode ms) =
      ([], ms.map (fun m => Ev.msg (coerceSC m))) := by
  rw [encodeStream_eq_flatten, onData_lines decode (ms.map encode)
      (by intro l hl; obtain ⟨m, hm, rfl⟩ := List.mem_map.mp hl; exact hnl m hm),
      flatMap_processLine_encode decode encode ms htrim hne hdec]

/-! ## A concrete JSON codec

Executable model of `JSON.stringify` / `JSON.parse` (on the whitespace-free,
escape-free fragment that the concrete messages below use), so that the
abstract `encode` / `decode` hypotheses of the transport theorems can be
discharged on concrete inputs. -/

def braceOpen : Char := Char.ofNat 123

def braceClose : Char := Char.ofNat 125

mutual
def encodeJson : Json → String
  | .null => "null"
  | .bool true => "true"
  | .bool false => "false"
  | .num n => toString n
  | .str s => "\"" ++ s ++ "\""
  | .arr xs => "[" ++ encodeElems xs ++ "]"
  | .obj fs => "\x7b" ++ encodeMembers fs ++ "\x7d"

def encodeElems : List Json → String
  | [] => ""
  | [x] => encodeJson x
  | x :: y :: xs => encodeJson x ++ "," ++ encodeElems (y :: xs)

def encodeMembers : List (String × Json) → String
  | [] => ""
  | [(k, v)] => "\"" ++ k ++ "\":" ++ encodeJson v
  | (k, v) :: f :: fs => "\"" ++ k ++ "\":" ++ encodeJson v ++ "," ++ encodeMembers (f :: fs)
end

/-- Scan a JSON string body up to the closing quote (escape-free fragment). -/
def parseStrAux : List Char → Option (List Char × List Char)
  | [] => none
  | c :: rest =>
      if c = '"' then some ([], rest)
      else
        match parseStrAux rest with
        | some (s, r) => some (c :: s, r)
        | none => none

def parseDigitsAux (acc : Nat) : List Char → Nat × List Char
  | [] => (acc, [])
  | c :: rest =>
      if c.isDigit then parseDigitsAux (acc * 10 + (c.toNat - 48)) rest
      else (acc, c :: rest)

def parseNum : List Char → Option (Json × List Char)
  | [] => none
  | c :: rest =>
      if c = '-' then
        match rest with
        | d :: _ =>
            if d.isDigit then
              let p := parseDigitsAux 0 rest
              some (.num (-(p.1 : Int)), p.2)
            else none
        | [] => none
      else if c.isDigit then
        let p := parseDigitsAux 0 (c :: rest)
        some (.num (p.1 : Int), p.2)
      else none

mutual
def parseVal : Nat → List Char → Option (Json × List Char)
  | 0, _ => none
  | _ + 1, 'n' :: 'u' :: 'l' :: 'l' :: rest => some (.null, rest)
  | _ + 1, 't' :: 'r' :: 'u' :: 'e' :: rest => some (.bool true, rest)
  | _ + 1, 'f' :: 'a' :: 'l' :: 's' :: 'e' :: rest => some (.bool false, rest)
  | _ + 1, '"' :: rest =>
      match parseStrAux rest with
      | some (s, r) => some (.str (String.mk s), r)
      | none => none
  | _ + 1, '[' :: ']' :: rest => some (.arr [], rest)
  | fuel + 1, '[' :: rest =>
      match parseElems fuel rest with
      | some (xs, r) => some (.arr xs, r)
      | none => none
  | fuel + 1, c :: rest =>
      if c = braceOpen then
        match rest with
        | c2 :: rest2 =>
            if c2 = braceClose then some (.obj [], rest2)
            else
              match parseMembers fuel [] rest with
              | some (fs, r) => some (.obj fs, r)
              | none => none
        | [] => none
      else parseNum (c :: rest)
  | _ + 1, [] => none

def parseElems : Nat → List Char → Option (List Json × List Char)
  | 0, _ => none
  | fuel + 1, cs =>
      match parseVal fuel cs with
      | some (x, r) =>
          match r with
          | ',' :: r2 =>
              (match parseElems fuel r2 with
               | some (xs, r3) => some (x :: xs, r3)
               | none => none)
          | ']' :: r2 => some ([x], r2)
          | _ => none
      | none => none

def parseMembers : Nat → List (String × Json) → List Char →
    Option (List (String × Json) × List Char)
  | 0, _, _ => none
  | fuel + 1, acc, '"' :: cs =>
      match parseStrAux cs with
      | some (k, ':' :: r) =>
          (match parseVal fuel r with
           | some (v, r2) =>
               -- members are assigned left to right onto the object under
               -- construction; a duplicate key overwrites in place, as in
               -- JavaScript
               match r2 with
               | ',' :: r3 => parseMembers fuel (setField acc (String.mk k) v) r3
               | c :: r3 =>
                   if c = braceClose then some (setField acc (String.mk k) v, r3)
                   else none
               | [] => none
           | none => none)
      | _ => none
  | _ + 1, _, _ => none
end

/-- Model of `JSON.parse` on an embedded string: parse one value consuming
the whole input, or fail. -/
def decodeJson (cs : List Char) : Option Json :=
  match parseVal (cs.length + 1) cs with
  | some (j, []) => some j
  | _ => none

/-- The byte form of `JSON.stringify`. -/
def encodeChars (m : Json) : List Char :=
  (encodeJson m).data

/-! ## ServerManager — discovery and the unified registry

From serverManager.ts (`ServerManager`).  The response interfaces below match
`ClientToolResponse` / `ClientResourceResponse` / `ClientPromptResponse`; the
unified metadata matches `UnifiedToolMetadata` / `UnifiedResourceMetadata` /
`UnifiedPromptMetadata`. -/

structure ClientToolResponse where
  name : String
  title : Option String := none
  description : Option String := none
  inputSchema : Option Json := none
deriving Repr

structure ClientResourceResponse where
  uri : String
  name : Option String := none
  title : Option String := none
  description : Option String := none
  mimeType : Option String := none
deriving Repr

structure ClientPromptResponse where
  name : String
  title : Option String := none
  description : Option String := none
  argsSchema : Option Json := none
deriving Repr

structure UnifiedToolMetadata where
  name : String
  title : String
  description : Option String
  inputSchema : Option Json
  serverName : String
  originalToolName : String
deriving Repr

structure UnifiedResourceMetadata where
  name : Option String
  uri : String
  title : String
  description : Option String
  mimeType : Option String
  serverName : String
  originalResourceUri : String
deriving Repr

structure UnifiedPromptMetadata where
  name : String
  title : String
  description : Option String
  argsSchema : Option Json
  serverName : String
  originalPromptName : String
deriving Repr

/-- JavaScript `a || b` for an optional string (`undefined` and `""` are
falsy). -/
def jsOrElse (a : Option String) (b : String) : String :=
  match a with
  | some s => if s = "" then b else s
  | none => b

/-- JavaScript `a || undefined` for an optional string. -/
def jsOrUndefined (a : Option String) : Option String :=
  match a with
  | some s => if s = "" then none else some s
  | none => none

/-- The push body of `tools.forEach` in `spawnServers` (the
`JSON.parse(JSON.stringify(...))` deep clone of the schema is the identity on
values). -/
def unifyTool (serverName : String) (t : ClientToolResponse) : UnifiedToolMetadata :=
  { name := serverName ++ "_" ++ t.name
    title := jsOrElse t.title (serverName ++ "_" ++ t.name)
    description := t.description
    inputSchema := t.inputSchema
    serverName := serverName
    originalToolName := t.name }

/-- The push body of `resources.forEach` in `spawnServers`. -/
def unifyResource (serverName : String) (r : ClientResourceResponse) : UnifiedResourceMetadata :=
  { name := jsOrUndefined r.name
    uri := serverName ++ "_" ++ r.uri
    title := jsOrElse r.title (serverName ++ "_" ++ r.uri)
    description := r.description
    mimeType := r.mimeType
    serverName := serverName
    originalResourceUri := r.uri }

/-- The push body of `prompts.forEach` in `spawnServers`. -/
def unifyPrompt (serverName : String) (p : ClientPromptResponse) : UnifiedPromptMetadata :=
  { name := serverName ++ "_" ++ p.name
    title := jsOrElse p.title (serverName ++ "_" ++ p.name)
    description := p.description
    argsSchema := p.argsSchema
    serverName := serverName
    originalPromptName := p.name }

/-- A JavaScript value as far as `Array.isArray` is concerned: an array of
`α`, or something else. -/
inductive JsField (α : Type) where
  | array (xs : List α)
  | notArray
deriving Repr, DecidableEq

def JsField.isArray : JsField α → Bool
  | .array _ => true
  | .notArray => false

def JsField.elems : JsField α → List α
  | .array xs => xs
  | .notArray => []

/-- Outcome of one `client.listTools()` / `listResources()` / `listPrompts()`
call: the promise rejected (the `catch` branch runs), or it resolved with a
response whose relevant field is `undefined` (`none`) or some value. -/
inductive ListOutcome (α : Type) where
  | rejected
  | resolved (field : Option (JsField α))
deriving Repr

/-- Log lines the discovery code can emit: the `console.warn` for a
non-array list response, and the `console.error` of a `catch` branch. -/
inductive LogEntry where
  | warnNotArray (serverName category : String)
  | errorListing (serverName category : String)
deriving Repr, DecidableEq

/-- One discovery block of `spawnServers`, e.g. for tools:
```
try {
    const response = await client.listTools();
    tools = Array.isArray(response.tools) ? response.tools : [];
    if (!Array.isArray(tools)) { console.warn(...); }
} catch (toolError) { console.error(...); }
```
The guard `Array.isArray(tools)` inspects the local variable `tools`, which
the previous line has already defaulted to an array. -/
def discoverCategory (serverName category : String) (outcome : ListOutcome α) :
    List α × List LogEntry :=
  match outcome with
  | .rejected => ([], [.errorListing serverName category])
  | .resolved field =>
      let xs : JsField α :=
        match field with
        | some f => if f.isArray then f else .array []
        | none => .array []
      let warns := if !xs.isArray then [LogEntry.warnNotArray serverName category] else []
      (xs.elems, warns)

/-- Behaviour of one configured child's three list calls. -/
structure ChildListing where
  tools : ListOutcome ClientToolResponse := .resolved (some (.array []))
  resources : ListOutcome ClientResourceResponse := .resolved (some (.array []))
  prompts : ListOutcome ClientPromptResponse := .resolved (some (.array []))

/-- Per-child configuration (the fields the registry logic reads; `command`,
`args`, `env`, `cwd` only affect the spawned process itself). -/
structure McpServerConfig where
  disabled : Bool := false
  listing : ChildListing := {}

/-- The three unified collections of `ServerManager`. -/
structure ManagerCollections where
  unifiedTools : List UnifiedToolMetadata
  unifiedResources : List UnifiedResourceMetadata
  unifiedPrompts : List UnifiedPromptMetadata
deriving Repr

/-- Discovery and registration for one non-disabled child (the body of the
`for (const serverName in this.config.mcpServers)` loop after the spawn
itself): run the three list calls, then push every discovered capability,
namespaced, onto the unified collections. -/
def registerChild (serverName : String) (listing : ChildListing) :
    ManagerCollections × List LogEntry :=
  let t := discoverCategory serverName "tools" listing.tools
  let r := discoverCategory serverName "resources" listing.resources
  let p := discoverCategory serverName "prompts" listing.prompts
  (⟨t.1.map (unifyTool serverName),
    r.1.map (unifyResource serverName),
    p.1.map (unifyPrompt serverName)⟩,
   t.2 ++ r.2 ++ p.2)

/-- `spawnServers`: iterate the configured servers in order, skip disabled
ones, and accumulate every child's registrations in order. -/
def spawnServers : List (String × McpServerConfig) →
    ManagerCollections × List LogEntry
  | [] => (⟨[], [], []⟩, [])
  | (serverName, cfg) :: rest =>
      let tail := spawnServers rest
      if cfg.disabled then tail
      else
        let child := registerChild serverName cfg.listing
        (⟨child.1.unifiedTools ++ tail.1.unifiedTools,
          child.1.unifiedResources ++ tail.1.unifiedResources,
          child.1.unifiedPrompts ++ tail.1.unifiedPrompts⟩,
         child.2 ++ tail.2)

/-! ## Child exit and `rebuildUnifiedCollections`

The `close` handler runs `spawnedServers.delete(serverName)` followed by
`rebuildUnifiedCollections()`.  The rebuild synchronously clears the three
collections and then, for each surviving client, calls `listTools()`,
`listResources()` and `listPrompts()` *without awaiting*: each response is
pushed onto the collections in a later event-loop turn.  The model below
makes those deferred pushes explicit events. -/

/-- A child's (fixed) capability lists as re-reported by its client during a
rebuild. -/
structure ChildSpec where
  tools : List ClientToolResponse := []
  resources : List ClientResourceResponse := []
  prompts : List ClientPromptResponse := []

inductive Category where
  | tools
  | resources
  | prompts
deriving Repr, DecidableEq

/-- `ServerManager` state between event-loop turns: the keys of
`spawnedServers` (a `Map`, so keys are distinct), the unified collections,
and the list responses a rebuild has scheduled but that have not yet been
delivered. -/
structure ManagerState where
  spawned : List String
  colls : ManagerCollections
  pending : List (String × Category)
deriving Repr

/-- `rebuildUnifiedCollections()` — the synchronous part clears the three
arrays; the `forEach` over `spawnedServers` schedules one list call per
category per surviving client, whose `.then` push runs later. -/
def rebuildUnifiedCollections (st : ManagerState) : ManagerState :=
  { spawned := st.spawned
    colls := ⟨[], [], []⟩
    pending := st.pending ++
      st.spawned.flatMap (fun s => [(s, .tools), (s, .resources), (s, .prompts)]) }

/-- The `childProcess.on('close', ...)` handler:
`this.spawnedServers.delete(serverName); this.rebuildUnifiedCollections();`
(`Map.delete` removes the key). -/
def onChildClose (serverName : String) (st : ManagerState) : ManagerState :=
  rebuildUnifiedCollections
    { st with spawned := st.spawned.filter (fun s => s ≠ serverName) }

/-- The push performed by the `.then` of one scheduled list call, when its
response arrives (`client.name` is the child's name). -/
def pushCategory (env : String → ChildSpec) (s : String) (cat : Category)
    (c : ManagerCollections) : ManagerCollections :=
  match cat with
  | .tools => { c with unifiedTools := c.unifiedTools ++ (env s).tools.map (unifyTool s) }
  | .resources => { c with unifiedResources := c.unifiedResources ++ (env s).resources.map (unifyResource s) }
  | .prompts => { c with unifiedPrompts := c.unifiedPrompts ++ (env s).prompts.map (unifyPrompt s) }

/-- Delivery of one scheduled list response. -/
def deliverListResponse (env : String → ChildSpec) (s : String) (cat : Category)
    (st : ManagerState) : ManagerState :=
  if (s, cat) ∈ st.pending then
    { spawned := st.spawned
      colls := pushCategory env s cat st.colls
      pending := st.pending.erase (s, cat) }
  else st

inductive MgrEvent where
  | close (serverName : String)
  | listResponse (serverName : String) (cat : Category)
deriving Repr, DecidableEq

def mgrStep (env : String → ChildSpec) (st : ManagerState) : MgrEvent → ManagerState
  | .close n => onChildClose n st
  | .listResponse s cat => deliverListResponse env s cat st

def runEvents (env : String → ChildSpec) (st : ManagerState) :
    List MgrEvent → ManagerState
  | [] => st
  | ev :: evs => runEvents env (mgrStep env st ev) evs

/-- State right after startup: all (non-disabled) children spawned and their
capabilities registered, no rebuild in flight. -/
def initState (env : String → ChildSpec) (names : List String) : ManagerState :=
  { spawned := names
    colls := ⟨names.flatMap (fun s => (env s).tools.map (unifyTool s)),
              names.flatMap (fun s => (env s).resources.map (unifyResource s)),
              names.flatMap (fun s => (env s).prompts.map (unifyPrompt s))⟩
    pending := [] }

/-- A trace is safe when every list response is delivered while its child is
still in `spawnedServers`. -/
def safeTrace (env : String → ChildSpec) (st : ManagerState) : List MgrEvent → Bool
  | [] => true
  | ev :: evs =>
      (match ev with
       | .listResponse s _ => decide (s ∈ st.spawned)
       | .close _ => true) &&
      safeTrace env (mgrStep env st ev) evs

/-- Every registry entry names a child that is in `spawnedServers`. -/
def registryOk (st : ManagerState) : Prop :=
  (∀ e ∈ st.colls.unifiedTools, e.serverName ∈ st.spawned) ∧
  (∀ e ∈ st.colls.unifiedResources, e.serverName ∈ st.spawned) ∧
  (∀ e ∈ st.colls.unifiedPrompts, e.serverName ∈ st.spawned)

/-! ## index.ts `main()` — registration and proxy handlers -/

/-- What an `async` handler does, observably: reject (throw), or resolve
with a value. -/
inductive HandlerOutcome (α : Type) where
  | thrown (message : String)
  | returned (v : α)
deriving Repr

/-- A tool proxy handler resolves either with the child's raw result object
or, from the `catch` branch, with a bare string. -/
inductive ToolHandlerValue where
  | json (v : Json)
  | str (s : String)
deriving Repr

/-- `error.message || 'Unknown error'` (`none` models an error without a
usable `message`). -/
def errMessage (e : Option String) : String :=
  jsOrElse e "Unknown error"

/-- The tool `proxyHandler` of `main()`:
look up the child (`getSpawnedServer`); throw when absent; otherwise
`await client.callTool({name: originalToolName, arguments: args})`,
returning the raw result on success and, on failure,
``return `Error: ${error.message || 'Unknown error'}` as any``. -/
def proxyHandler (toolMetadata : UnifiedToolMetadata)
    (serverEntry : Option (String → Json → Except (Option String) Json))
    (args : Json) : HandlerOutcome ToolHandlerValue :=
  match serverEntry with
  | none =>
      .thrown ("Server '" ++ toolMetadata.serverName ++ "' not found or not running.")
  | some callTool =>
      match callTool toolMetadata.originalToolName args with
      | .ok rawResult => .returned (.json rawResult)
      | .error e => .returned (.str ("Error: " ++ errMessage e))

/-- The `resourceHandler` of `main()`: forwards
`readResource({uri: originalResourceUri})` and returns the raw result;
failures are re-thrown as `Failed to read resource: ...`. -/
def resourceHandler (resourceMetadata : UnifiedResourceMetadata)
    (serverEntry : Option (String → Except (Option String) Json)) :
    HandlerOutcome Json :=
  match serverEntry with
  | none =>
      .thrown ("Server '" ++ resourceMetadata.serverName ++ "' not found or not running.")
  | some readResource =>
      match readResource resourceMetadata.originalResourceUri with
      | .ok rawResult => .returned rawResult
      | .error e => .thrown ("Failed to read resource: " ++ errMessage e)

/-- `(rawResult.content as any[])[0]` on the success path of the prompt
handler (the handler is used with results whose `content` is a non-empty
array; `Json.null` stands in for the out-of-range `undefined`). -/
def contentAt0 (rawResult : Json) : Json :=
  match getField rawResult "content" with
  | some (.arr (x :: _)) => x
  | _ => .null

/-- `rawResult._meta || {}`. -/
def metaOrEmpty (rawResult : Json) : Json :=
  match getField rawResult "_meta" with
  | some m => if jsTruthy m then m else .obj []
  | none => .obj []

/-- The `messages`-array wrapping the prompt handler builds around the
child's raw result. -/
def wrapPromptResult (rawResult : Json) : Json :=
  Json.obj
    [("messages", .arr [Json.obj [("content", contentAt0 rawResult),
                                  ("role", .str "assistant")]]),
     ("_meta", metaOrEmpty rawResult)]

/-- The `promptHandler` of `main()`: forwards the call *via `callTool`* with
the prompt's original name, then wraps the raw result into the `messages`
structure; failures are re-thrown as `Failed to execute prompt: ...`. -/
def promptHandler (promptMetadata : UnifiedPromptMetadata)
    (serverEntry : Option (String → Json → Except (Option String) Json))
    (args : Json) : HandlerOutcome Json :=
  match serverEntry with
  | none =>
      .thrown ("Server '" ++ promptMetadata.serverName ++ "' not found or not running.")
  | some callTool =>
      match callTool promptMetadata.originalPromptName args with
      | .ok rawResult => .returned (wrapPromptResult rawResult)
      | .error e => .thrown ("Failed to execute prompt: " ++ errMessage e)

/-- One `mcpServer.registerTool` call, as observable registration data:
the exposed name and the `title` option. -/
structure ToolRegistration where
  name : String
  title : String
deriving Repr, DecidableEq

/-- The handler of the extra `"add"` tool:
`async ({a, b}) => ({content: [{type: "text", text: String(a + b)}]})`. -/
def addToolHandler (a b : Int) : Json :=
  Json.obj [("content", .arr [Json.obj [("type", .str "text"),
                                        ("text", .str (toString (a + b)))]])]

/-- The `registerTool` calls `main()` performs: the
`serverManager.getUnifiedTools().forEach` body registers the unified tool
and then — inside the same `forEach` — registers the `"add"` tool again. -/
def registeredToolCalls (unifiedTools : List UnifiedToolMetadata) : List ToolRegistration :=
  unifiedTools.flatMap (fun toolMetadata =>
    [⟨toolMetadata.name, toolMetadata.title⟩,
     ⟨"add", "Addition Tool"⟩])

/-- The `registerResource` calls of `main()`: one per unified resource,
registered under the unified URI (`resourceMetadata.uri`). -/
def registeredResourceUris (unifiedResources : List UnifiedResourceMetadata) : List String :=
  unifiedResources.map (fun resourceMetadata => resourceMetadata.uri)

/-! ## Registry characterization lemmas -/

theorem discoverCategory_resolved_no_warn {α : Type} (sn cat : String)
    (field : Option (JsField α)) :
    (discoverCategory sn cat (.resolved field)).2 = [] := by
  cases field with
  | none => rfl
  | some f => cases f <;> rfl

theorem discoverCategory_logs {α : Type} (sn cat : String) (o : ListOutcome α) :
    ∀ l ∈ (discoverCategory sn cat o).2, l = LogEntry.errorListing sn cat := by
  cases o with
  | rejected => intro l hl; simpa [discoverCategory] using hl
  | resolved field =>
      intro l hl
      rw [discoverCategory_resolved_no_warn] at hl
      simp at hl

theorem spawnServers_unifiedTools (cfg : List (String × McpServerConfig)) :
    (spawnServers cfg).1.unifiedTools =
      cfg.flatMap (fun p =>
        if p.2.disabled then []
        else ((discoverCategory p.1 "tools" p.2.listing.tools).1).map (unifyTool p.1)) := by
  induction cfg with
  | nil => rfl
  | cons p rest ih =>
      obtain ⟨name, c⟩ := p
      by_cases hd : c.disabled
      · simp [spawnServers, hd, ih]
      · simp [spawnServers, registerChild, hd, ih]

theorem spawnServers_unifiedResources (cfg : List (String × McpServerConfig)) :
    (spawnServers cfg).1.unifiedResources =
      cfg.flatMap (fun p =>
        if p.2.disabled then []
        else ((discoverCategory p.1 "resources" p.2.listing.resources).1).map (unifyResource p.1)) := by
  induction cfg with
  | nil => rfl
  | cons p rest ih =>
      obtain ⟨name, c⟩ := p
      by_cases hd : c.disabled
      · simp [spawnServers, hd, ih]
      · simp [spawnServers, registerChild, hd, ih]

theorem spawnServers_unifiedPrompts (cfg : List (String × McpServerConfig)) :
    (spawnServers cfg).1.unifiedPrompts =
      cfg.flatMap (fun p =>
        if p.2.disabled then []
        else ((discoverCategory p.1 "prompts" p.2.listing.prompts).1).map (unifyPrompt p.1)) := by
  induction cfg with
  | nil => rfl
  | cons p rest ih =>
      obtain ⟨name, c⟩ := p
      by_cases hd : c.disabled
      · simp [spawnServers, hd, ih]
      · simp [spawnServers, registerChild, hd, ih]

theorem spawnServers_logs (cfg : List (String × McpServerConfig)) :
    ∀ l ∈ (spawnServers cfg).2, ∃ sn cat, l = LogEntry.errorListing sn cat := by
  induction cfg with
  | nil => intro l hl; simp [spawnServers] at hl
  | cons p rest ih =>
      obtain ⟨name, c⟩ := p
      intro l hl
      by_cases hd : c.disabled
      · exact ih l (by simpa [spawnServers, hd] using hl)
      · simp only [spawnServers, hd, if_neg, Bool.false_eq_true, if_false,
          registerChild, List.mem_append] at hl
        rcases hl with ((hl | hl) | hl) | hl
        · exact ⟨name, "tools", discoverCategory_logs name "tools" _ l hl⟩
        · exact ⟨name, "resources", discoverCategory_logs name "resources" _ l hl⟩
        · exact ⟨name, "prompts", discoverCategory_logs name "prompts" _ l hl⟩
        · exact ih l hl

theorem mem_spawnServers_tools {cfg : List (String × McpServerConfig)}
    {e : UnifiedToolMetadata} (he : e ∈ (spawnServers cfg).1.unifiedTools) :
    ∃ s t, e = unifyTool s t := by
  rw [spawnServers_unifiedTools] at he
  obtain ⟨p, _, he2⟩ := List.mem_flatMap.mp he
  by_cases hd : p.2.disabled
  · rw [if_pos hd] at he2; simp at he2
  · rw [if_neg hd] at he2
    obtain ⟨t, _, rfl⟩ := List.mem_map.mp he2
    exact ⟨p.1, t, rfl⟩

theorem mem_spawnServers_resources {cfg : List (String × McpServerConfig)}
    {e : UnifiedResourceMetadata} (he : e ∈ (spawnServers cfg).1.unifiedResources) :
    ∃ s r, e = unifyResource s r := by
  rw [spawnServers_unifiedResources] at he
  obtain ⟨p, _, he2⟩ := List.mem_flatMap.mp he
  by_cases hd : p.2.disabled
  · rw [if_pos hd] at he2; simp at he2
  · rw [if_neg hd] at he2
    obtain ⟨r, _, rfl⟩ := List.mem_map.mp he2
    exact ⟨p.1, r, rfl⟩

theorem mem_spawnServers_prompts {cfg : List (String × McpServerConfig)}
    {e : UnifiedPromptMetadata} (he : e ∈ (spawnServers cfg).1.unifiedPrompts) :
    ∃ s q, e = unifyPrompt s q := by
  rw [spawnServers_unifiedPrompts] at he
  obtain ⟨p, _, he2⟩ := List.mem_flatMap.mp he
  by_cases hd : p.2.disabled
  · rw [if_pos hd] at he2; simp at he2
  · rw [if_neg hd] at he2
    obtain ⟨q, _, rfl⟩ := List.mem_map.mp he2
    exact ⟨p.1, q, rfl⟩

/-- A string of the form `s ++ "_" ++ u` contains an underscore. -/
theorem underscore_mem_namespaced (s u : String) : '_' ∈ (s ++ "_" ++ u).data := by
  simp [String.data_append]

/-- Unified tool names always contain an underscore, so they never equal
`"add"`. -/
theorem unified_tool_name_ne_add (s : String) (t : ClientToolResponse) :
    (unifyTool s t).name ≠ "add" := by
  intro h
  have hu : '_' ∈ (s ++ "_" ++ t.name).data := underscore_mem_namespaced s t.name
  rw [show (unifyTool s t).name = s ++ "_" ++ t.name from rfl] at h
  rw [h] at hu
  simp at hu

/-! ## Claim C3 — collisions in the unified registry -/

/-- C3 (amended): capability registration performs no collision check at all:
the unified tool registry is exactly the concatenation, in configuration
order, of every non-disabled child's namespaced tools — a later registration
whose unified name equals an earlier one is inserted as well — and the only
log lines discovery can emit are listing-error logs, never a collision
warning. -/
theorem c3_theorem (cfg : List (String × McpServerConfig)) :
    ((spawnServers cfg).1.unifiedTools).map (fun e => e.name) =
      cfg.flatMap (fun p =>
        if p.2.disabled then []
        else ((discoverCategory p.1 "tools" p.2.listing.tools).1).map
          (fun t => p.1 ++ "_" ++ t.name)) ∧
    ((spawnServers cfg).1.unifiedResources).map (fun e => e.uri) =
      cfg.flatMap (fun p =>
        if p.2.disabled then []
        else ((discoverCategory p.1 "resources" p.2.listing.resources).1).map
          (fun r => p.1 ++ "_" ++ r.uri)) ∧
    ((spawnServers cfg).1.unifiedPrompts).map (fun e => e.name) =
      cfg.flatMap (fun p =>
        if p.2.disabled then []
        else ((discoverCategory p.1 "prompts" p.2.listing.prompts).1).map
          (fun q => p.1 ++ "_" ++ q.name)) ∧
    ∀ l ∈ (spawnServers cfg).2, ∃ serverName category,
      l = LogEntry.errorListing serverName category := by
  refine ⟨?_, ?_, ?_, spawnServers_logs cfg⟩
  · rw [spawnServers_unifiedTools, List.map_flatMap]
    refine List.flatMap_congr (fun p _ => ?_)
    by_cases hd : p.2.disabled
    · simp [hd]
    · simp [hd, List.map_map]
      intro t _
      rfl
  · rw [spawnServers_unifiedResources, List.map_flatMap]
    refine List.flatMap_congr (fun p _ => ?_)
    by_cases hd : p.2.disabled
    · simp [hd]
    · simp [hd, List.map_map]
      intro r _
      rfl
  · rw [spawnServers_unifiedPrompts, List.map_flatMap]
    refine List.flatMap_congr (fun p _ => ?_)
    by_cases hd : p.2.disabled
    · simp [hd]
    · simp [hd, List.map_map]
      intro q _
      rfl

/-- Two children whose aliases and tool names collide after namespacing:
child `a` exposing tool `b_c` and child `a_b` exposing tool `c` both produce
the unified name `a_b_c`. -/
def cfgCollision : List (String × McpServerConfig) :=
  [("a", { listing := { tools := .resolved (some (.array [{ name := "b_c" }])) } }),
   ("a_b", { listing := { tools := .resolved (some (.array [{ name := "c" }])) } })]

/-- C3 counterexample: with `cfgCollision` the registry holds *two* entries
with the same unified name `a_b_c` — the later registration is inserted, not
dropped — and no warning (indeed no log line at all) is emitted. -/
theorem c3_counterexample :
    ((spawnServers cfgCollision).1.unifiedTools).map (fun e => e.name) =
      ["a_b_c", "a_b_c"] ∧
    (spawnServers cfgCollision).2 = [] := by
  exact ⟨rfl, rfl⟩

/-- C3 witness-style instance: the log characterization applied at a child
whose `resources/list` rejects. -/
def cfgOneError : List (String × McpServerConfig) :=
  [("w", { listing := { resources := .rejected } })]

theorem c3_witness :
    (LogEntry.errorListing "w" "resources" ∈ (spawnServers cfgOneError).2) ∧
    (∃ serverName category, LogEntry.errorListing "w" "resources" =
      LogEntry.errorListing serverName category) := by
  refine ⟨by decide, (c3_theorem cfgOneError).2.2.2 _ (by decide)⟩

/-! ## Claim C7 — tool proxy handler failure shape -/

/-- C7 (amended): when the forwarded `callTool` rejects, the tool proxy
handler does not throw — it catches the failure and resolves — but what it
returns is the bare string `Error: <message or "Unknown error">`, not an
MCP error object with `isError: true` and a `content` array. -/
theorem c7_theorem (toolMetadata : UnifiedToolMetadata)
    (callTool : String → Json → Except (Option String) Json) (args : Json)
    (e : Option String)
    (hcall : callTool toolMetadata.originalToolName args = .error e) :
    proxyHandler toolMetadata (some callTool) args =
      .returned (.str ("Error: " ++ errMessage e)) ∧
    ∀ msg, proxyHandler toolMetadata (some callTool) args ≠ .thrown msg := by
  refine ⟨by simp [proxyHandler, hcall], ?_⟩
  intro msg h
  simp [proxyHandler, hcall] at h

def failingToolMeta : UnifiedToolMetadata :=
  { name := "w_t", title := "w_t", description := none, inputSchema := none
    serverName := "w", originalToolName := "t" }

def failingCallTool : String → Json → Except (Option String) Json :=
  fun _ _ => .error (some "boom")

/-- C7 counterexample: on a rejected child call the handler resolves with the
bare string `"Error: boom"`; no JSON object at all is returned, so in
particular no `{isError: true, content: [...]}` response is produced. -/
theorem c7_counterexample :
    proxyHandler failingToolMeta (some failingCallTool) (Json.obj []) =
      .returned (.str "Error: boom") ∧
    ∀ v : Json, proxyHandler failingToolMeta (some failingCallTool) (Json.obj []) ≠
      .returned (.json v) := by
  refine ⟨rfl, ?_⟩
  intro v h
  rw [show proxyHandler failingToolMeta (some failingCallTool) (Json.obj []) =
      .returned (.str "Error: boom") from rfl] at h
  cases h

theorem c7_witness :
    (failingCallTool failingToolMeta.originalToolName (Json.obj []) =
      .error (some "boom")) ∧
    proxyHandler failingToolMeta (some failingCallTool) (Json.obj []) =
      .returned (.str ("Error: " ++ errMessage (some "boom"))) := by
  exact ⟨rfl, (c7_theorem failingToolMeta failingCallTool (Json.obj []) (some "boom") rfl).1⟩

/-! ## Claim C8 — discovery tolerance -/

/-- A child whose `tools/list` answers with one tool, whose `resources/list`
rejects, and whose `prompts/list` answers with an empty array. -/
def cfgPartial : List (String × McpServerConfig) :=
  [("weather",
    { listing :=
      { tools := .resolved (some (.array [{ name := "get_forecast" }]))
        resources := .rejected } })]

/-- C8: a non-array `tools` field is treated as the empty list, but — against
the claim — *no* warning is emitted, because the guard
`if (!Array.isArray(tools))` tests the local variable that the previous line
already defaulted to `[]`; and a rejected `resources/list` leaves only that
category empty while the same child's tools are still registered and its only
trace is the `catch` branch's error log. -/
theorem c8_theorem :
    (discoverCategory "weather" "tools"
        (ListOutcome.resolved (some (JsField.notArray : JsField ClientToolResponse))) =
      ([], [])) ∧
    spawnServers cfgPartial =
      (⟨[unifyTool "weather" { name := "get_forecast" }], [], []⟩,
       [LogEntry.errorListing "weather" "resources"]) := by
  exact ⟨rfl, rfl⟩

/-! ## Claim C9 — the stats resource -/

/-- C9: no configuration ever exposes the resource
`stats://mcp-router-server`: `main()` registers exactly one resource per
unified resource, every unified URI is `serverName ++ "_" ++ originalUri`
and therefore contains `'_'`, which the stats URI does not. -/
theorem c9_theorem (cfg : List (String × McpServerConfig)) :
    (registeredResourceUris (spawnServers cfg).1.unifiedResources).count
      "stats://mcp-router-server" = 0 := by
  rw [List.count_eq_zero]
  intro hmem
  obtain ⟨e, he, huri⟩ := List.mem_map.mp hmem
  obtain ⟨s, r, rfl⟩ := mem_spawnServers_resources he
  have hu : '_' ∈ (s ++ "_" ++ r.uri).data := underscore_mem_namespaced s r.uri
  rw [show (unifyResource s r).uri = s ++ "_" ++ r.uri from rfl] at huri
  rw [huri] at hu
  simp at hu

/-! ## Claim C10 — the extra "add" tool -/

/-- C10: whenever at least one tool was discovered, `main()` registers the
`"add"` tool (title `"Addition Tool"`) once per discovered tool — it is not
any child's namespaced tool, every namespaced tool is also registered, so the
registered tool set strictly exceeds the namespaced union — and its handler
returns a single text content holding `String(a + b)`. -/
theorem c10_theorem (cfg : List (String × McpServerConfig))
    (h : 0 < ((spawnServers cfg).1.unifiedTools).length) :
    (ToolRegistration.mk "add" "Addition Tool" ∈
      registeredToolCalls ((spawnServers cfg).1.unifiedTools)) ∧
    ((registeredToolCalls ((spawnServers cfg).1.unifiedTools)).map
        (fun reg => reg.name)).count "add" =
      ((spawnServers cfg).1.unifiedTools).length ∧
    (((spawnServers cfg).1.unifiedTools).map (fun e => e.name)).count "add" = 0 ∧
    (∀ e ∈ (spawnServers cfg).1.unifiedTools,
      e.name ∈ (registeredToolCalls ((spawnServers cfg).1.unifiedTools)).map
        (fun reg => reg.name)) ∧
    (∀ a b : Int, getField (addToolHandler a b) "content" =
      some (.arr [Json.obj [("type", .str "text"), ("text", .str (toString (a + b)))]])) := by
  have hne : ∀ e ∈ (spawnServers cfg).1.unifiedTools, e.name ≠ "add" := by
    intro e he
    obtain ⟨s, t, rfl⟩ := mem_spawnServers_tools he
    exact unified_tool_name_ne_add s t
  refine ⟨?_, ?_, ?_, ?_, ?_⟩
  · obtain ⟨e, rest, hcons⟩ := List.exists_cons_of_ne_nil (List.ne_nil_of_length_pos h)
    rw [hcons]
    simp [registeredToolCalls]
  · generalize (spawnServers cfg).1.unifiedTools = ts at hne ⊢
    induction ts with
    | nil => rfl
    | cons t ts ih =>
        have hts := ih (fun e he => hne e (List.mem_cons_of_mem t he))
        have hhd := hne t (List.mem_cons_self t ts)
        simp [registeredToolCalls, List.count_cons, hhd, Ne.symm hhd] at hts ⊢
        omega
  · generalize (spawnServers cfg).1.unifiedTools = ts at hne ⊢
    induction ts with
    | nil => rfl
    | cons t ts ih =>
        have hts := ih (fun e he => hne e (List.mem_cons_of_mem t he))
        have hhd := hne t (List.mem_cons_self t ts)
        simp [List.count_cons, Ne.symm hhd] at hts ⊢
        exact hts
  · intro e he
    rw [List.mem_map]
    exact ⟨⟨e.name, e.title⟩, by
      simp only [registeredToolCalls, List.mem_flatMap]
      exact ⟨e, he, by simp⟩, rfl⟩
  · intro a b
    rfl

def cfgOneTool : List (String × McpServerConfig) :=
  [("w", { listing := { tools := .resolved (some (.array [{ name := "get" }])) } })]

theorem c10_witness :
    (0 < ((spawnServers cfgOneTool).1.unifiedTools).length) ∧
    (ToolRegistration.mk "add" "Addition Tool" ∈
      registeredToolCalls ((spawnServers cfgOneTool).1.unifiedTools)) := by
  exact ⟨by decide, (c10_theorem cfgOneTool (by decide)).1⟩

/-! ## Claim C1 — namespacing and dispatch -/

/-- C1 (amended): every registered capability's unified identifier is the
child's alias, an underscore, and the capability's original name (tools,
prompts) or original URI (resources); dispatch forwards to the owning child
under the original name/URI with the incoming arguments passed through, and
the child's successful response is returned unchanged for tools and
resources — but a prompt response is wrapped into a `messages` structure
(its first `content` element under role `assistant`, with `_meta` preserved
or defaulted to `{}`), not returned unchanged. -/
theorem c1_theorem (cfg : List (String × McpServerConfig)) :
    (∀ e ∈ (spawnServers cfg).1.unifiedTools,
      e.name = e.serverName ++ "_" ++ e.originalToolName) ∧
    (∀ e ∈ (spawnServers cfg).1.unifiedResources,
      e.uri = e.serverName ++ "_" ++ e.originalResourceUri) ∧
    (∀ e ∈ (spawnServers cfg).1.unifiedPrompts,
      e.name = e.serverName ++ "_" ++ e.originalPromptName) ∧
    (∀ (meta : UnifiedToolMetadata)
       (callTool : String → Json → Except (Option String) Json) (args raw : Json),
      callTool meta.originalToolName args = .ok raw →
      proxyHandler meta (some callTool) args = .returned (.json raw)) ∧
    (∀ (meta : UnifiedResourceMetadata)
       (readResource : String → Except (Option String) Json) (raw : Json),
      readResource meta.originalResourceUri = .ok raw →
      resourceHandler meta (some readResource) = .returned raw) ∧
    (∀ (meta : UnifiedPromptMetadata)
       (callTool : String → Json → Except (Option String) Json) (args raw : Json),
      callTool meta.originalPromptName args = .ok raw →
      promptHandler meta (some callTool) args = .returned (wrapPromptResult raw)) := by
  refine ⟨?_, ?_, ?_, ?_, ?_, ?_⟩
  · intro e he
    obtain ⟨s, t, rfl⟩ := mem_spawnServers_tools he
    rfl
  · intro e he
    obtain ⟨s, r, rfl⟩ := mem_spawnServers_resources he
    rfl
  · intro e he
    obtain ⟨s, q, rfl⟩ := mem_spawnServers_prompts he
    rfl
  · intro meta callTool args raw hcall
    simp [proxyHandler, hcall]
  · intro meta readResource raw hcall
    simp [resourceHandler, hcall]
  · intro meta callTool args raw hcall
    simp [promptHandler, hcall]

def promptMeta : UnifiedPromptMetadata :=
  unifyPrompt "w" { name := "greet" }

/-- A child's raw prompt result: one text content element and an empty
`_meta`. -/
def promptRaw : Json :=
  Json.obj [("content", .arr [.str "hi"]), ("_meta", .obj [])]

def promptCall : String → Json → Except (Option String) Json :=
  fun _ _ => .ok promptRaw

/-- C1 counterexample: a successful prompt dispatch does *not* return the
child's response unchanged — the handler returns the wrapped `messages`
structure, which differs from the raw response. -/
theorem c1_counterexample :
    promptHandler promptMeta (some promptCall) (Json.obj []) =
      .returned (Json.obj
        [("messages", .arr [Json.obj [("content", .str "hi"),
                                      ("role", .str "assistant")]]),
         ("_meta", .obj [])]) ∧
    Json.obj
        [("messages", .arr [Json.obj [("content", .str "hi"),
                                      ("role", .str "assistant")]]),
         ("_meta", .obj [])] ≠ promptRaw := by
  refine ⟨rfl, ?_⟩
  intro h
  rw [show promptRaw = Json.obj [("content", .arr [.str "hi"]), ("_meta", .obj [])] from rfl] at h
  have h2 := (Json.obj.injEq _ _).mp h
  have h3 := (List.cons.injEq _ _ _ _).mp h2
  have h4 := (Prod.mk.injEq _ _ _ _).mp h3.1
  exact absurd h4.1 (by decide)

theorem c1_witness :
    (promptCall promptMeta.originalPromptName (Json.obj []) = .ok promptRaw) ∧
    promptHandler promptMeta (some promptCall) (Json.obj []) =
      .returned (wrapPromptResult promptRaw) := by
  exact ⟨rfl,
    (c1_theorem []).2.2.2.2.2 promptMeta promptCall (Json.obj []) promptRaw rfl⟩

/-! ## Claim C2 — registry entries and child liveness -/

theorem mgrStep_spawned_subset (env : String → ChildSpec) (st : ManagerState)
    (ev : MgrEvent) : (mgrStep env st ev).spawned ⊆ st.spawned := by
  cases ev with
  | close n =>
      intro x hx
      simp only [mgrStep, onChildClose, rebuildUnifiedCollections] at hx
      exact (List.mem_filter.mp hx).1
  | listResponse s cat =>
      intro x hx
      simp only [mgrStep, deliverListResponse] at hx
      by_cases hp : (s, cat) ∈ st.pending
      · simpa [hp] using hx
      · simpa [hp] using hx

theorem registryOk_mgrStep (env : String → ChildSpec) (st : ManagerState)
    (ev : MgrEvent) (hok : registryOk st)
    (hsafe : ∀ s cat, ev = .listResponse s cat → s ∈ st.spawned) :
    registryOk (mgrStep env st ev) := by
  cases ev with
  | close n =>
      refine ⟨?_, ?_, ?_⟩ <;>
        · intro e he
          simp [mgrStep, onChildClose, rebuildUnifiedCollections] at he
  | listResponse s cat =>
      have hs : s ∈ st.spawned := hsafe s cat rfl
      by_cases hp : (s, cat) ∈ st.pending
      · obtain ⟨h1, h2, h3⟩ := hok
        simp only [mgrStep, deliverListResponse, if_pos hp]
        cases cat with
        | tools =>
            refine ⟨?_, h2, h3⟩
            intro e he
            rcases List.mem_append.mp he with he | he
            · exact h1 e he
            · obtain ⟨t, _, rfl⟩ := List.mem_map.mp he
              exact hs
        | resources =>
            refine ⟨h1, ?_, h3⟩
            intro e he
            rcases List.mem_append.mp he with he | he
            · exact h2 e he
            · obtain ⟨r, _, rfl⟩ := List.mem_map.mp he
              exact hs
        | prompts =>
            refine ⟨h1, h2, ?_⟩
            intro e he
            rcases List.mem_append.mp he with he | he
            · exact h3 e he
            · obtain ⟨q, _, rfl⟩ := List.mem_map.mp he
              exact hs
      · simpa [mgrStep, deliverListResponse, if_neg hp] using hok

theorem registryOk_runEvents (env : String → ChildSpec) (evs : List MgrEvent) :
    ∀ st : ManagerState, registryOk st → safeTrace env st evs = true →
      registryOk (runEvents env st evs) := by
  induction evs with
  | nil => intro st hok _; exact hok
  | cons ev evs ih =>
      intro st hok hsafe
      simp only [safeTrace, Bool.and_eq_true] at hsafe
      refine ih (mgrStep env st ev) ?_ hsafe.2
      refine registryOk_mgrStep env st ev hok ?_
      intro s cat hev
      subst hev
      exact of_decide_eq_true hsafe.1

theorem not_spawned_runEvents (env : String → ChildSpec) (evs : List MgrEvent) :
    ∀ (st : ManagerState) (x : String), x ∉ st.spawned →
      x ∉ (runEvents env st evs).spawned := by
  induction evs with
  | nil => intro st x hx; exact hx
  | cons ev evs ih =>
      intro st x hx
      exact ih (mgrStep env st ev) x (fun h => hx (mgrStep_spawned_subset env st ev h))

theorem registryOk_initState (env : String → ChildSpec) (names : List String) :
    registryOk (initState env names) := by
  refine ⟨?_, ?_, ?_⟩ <;>
    · intro e he
      obtain ⟨s, hs, he2⟩ := List.mem_flatMap.mp he
      obtain ⟨c, _, rfl⟩ := List.mem_map.mp he2
      exact hs

theorem runEvents_append (env : String → ChildSpec) (a b : List MgrEvent) :
    ∀ st, runEvents env st (a ++ b) = runEvents env (runEvents env st a) b := by
  induction a with
  | nil => intro st; rfl
  | cons ev evs ih => intro st; exact ih (mgrStep env st ev)

theorem safeTrace_append (env : String → ChildSpec) (a b : List MgrEvent) :
    ∀ st, safeTrace env st (a ++ b) =
      (safeTrace env st a && safeTrace env (runEvents env st a) b) := by
  induction a with
  | nil => intro st; rfl
  | cons ev evs ih =>
      intro st
      simp only [List.cons_append, safeTrace, runEvents, List.append_eq]
      rw [ih (mgrStep env st ev), Bool.and_assoc]

/-- After `close x` the child `x` is gone from `spawnedServers`. -/
theorem close_removes (env : String → ChildSpec) (st : ManagerState) (x : String) :
    x ∉ (mgrStep env st (.close x)).spawned := by
  simp [mgrStep, onChildClose, rebuildUnifiedCollections, List.mem_filter]

/-- C2 (amended): provided every deferred rebuild list-response is delivered
while its child is still in `spawnedServers` (the safe-trace condition),
every registry entry at every reachable state names a running child; the
synchronous part of the `close` handler leaves the registry with no entry at
all of the closed child (the collections are cleared before anything else can
observe them), and in any later state no unified tool entry of that child
exists, so a subsequent `tools/list` read of the registry contains none of
its entries.  (Without the safe-trace condition a deferred response can
re-insert entries of a child that has since closed — see the
counterexample.) -/
theorem c2_theorem (env : String → ChildSpec) (names : List String)
    (pre post : List MgrEvent) (x : String)
    (hsafe : safeTrace env (initState env names)
      (pre ++ MgrEvent.close x :: post) = true) :
    registryOk (runEvents env (initState env names)
      (pre ++ MgrEvent.close x :: post)) ∧
    (runEvents env (initState env names)
      (pre ++ [MgrEvent.close x])).colls.unifiedTools = [] ∧
    x ∉ (runEvents env (initState env names)
      (pre ++ MgrEvent.close x :: post)).spawned ∧
    ∀ e ∈ (runEvents env (initState env names)
      (pre ++ MgrEvent.close x :: post)).colls.unifiedTools,
      e.serverName ≠ x := by
  have hok := registryOk_runEvents env (pre ++ MgrEvent.close x :: post)
    (initState env names) (registryOk_initState env names) hsafe
  have hcleared : (runEvents env (initState env names)
      (pre ++ [MgrEvent.close x])).colls.unifiedTools = [] := by
    rw [runEvents_append]
    rfl
  have hout : x ∉ (runEvents env (initState env names)
      (pre ++ MgrEvent.close x :: post)).spawned := by
    rw [show pre ++ MgrEvent.close x :: post = (pre ++ [MgrEvent.close x]) ++ post
        by simp, runEvents_append, runEvents_append]
    refine not_spawned_runEvents env post _ x ?_
    exact close_removes env (runEvents env (initState env names) pre) x
  refine ⟨hok, hcleared, hout, ?_⟩
  intro e he heq
  exact hout (heq ▸ hok.1 e he)

/-- Capabilities the children re-report during rebuilds: child `b` has one
tool, child `a` has none. -/
def envTwo : String → ChildSpec :=
  fun s => if s = "b" then { tools := [{ name := "t" }] } else {}

/-- C2 counterexample: close `a` (its rebuild schedules a re-list of `b`),
then close `b`, then let `b`'s deferred list response arrive: the registry
again holds an entry of `b` although `b` is no longer running — so the
invariant fails and a `tools/list` read after `b`'s close still shows a
`b` entry. -/
theorem c2_counterexample :
    ((runEvents envTwo (initState envTwo ["a", "b"])
        [.close "a", .close "b", .listResponse "b" .tools]).colls.unifiedTools).map
      (fun e => e.serverName) = ["b"] ∧
    (runEvents envTwo (initState envTwo ["a", "b"])
        [.close "a", .close "b", .listResponse "b" .tools]).spawned = [] := by
  exact ⟨rfl, rfl⟩

theorem c2_witness :
    (safeTrace envTwo (initState envTwo ["a", "b"])
      ([] ++ MgrEvent.close "a" :: []) = true) ∧
    "a" ∉ (runEvents envTwo (initState envTwo ["a", "b"])
      ([] ++ MgrEvent.close "a" :: [])).spawned := by
  exact ⟨by decide,
    (c2_theorem envTwo ["a", "b"] [] [] "a" (by decide)).2.2.1⟩

/-! ## Claim C6 — the structuredContent coercion -/

theorem lookupField_setField_self (fs : List (String × Json)) (k : String) (v : Json) :
    getField.lookupField (setField fs k v) k = some v := by
  induction fs with
  | nil => simp [setField, getField.lookupField]
  | cons p rest ih =>
      obtain ⟨k', y⟩ := p
      by_cases hk : k' = k
      · simp [setField, hk, getField.lookupField]
      · simp [setField, hk, getField.lookupField, ih]

theorem lookupField_setField_ne (fs : List (String × Json)) (k k' : String) (v : Json)
    (h : k' ≠ k) :
    getField.lookupField (setField fs k' v) k = getField.lookupField fs k := by
  induction fs with
  | nil => simp [setField, getField.lookupField, h]
  | cons p rest ih =>
      obtain ⟨k2, y⟩ := p
      by_cases h1 : k2 = k'
      · subst h1
        simp [setField, getField.lookupField, h]
      · by_cases h2 : k2 = k
        · simp [setField, h1, getField.lookupField, h2, Ne.symm h]
        · simp [setField, h1, getField.lookupField, h2, ih]

/-- What the data handler's guard accepts: an object with `jsonrpc` matching,
whose `result` property is an object carrying `structuredContent: null`. -/
theorem isResultNullSC_shape (m : Json) (h : isResultNullSC m = true) :
    ∃ fields rf, m = Json.obj fields ∧
      getField.lookupField fields "result" = some (Json.obj rf) ∧
      getField.lookupField rf "structuredContent" = some Json.null := by
  cases m with
  | obj fields =>
      refine ⟨fields, ?_⟩
      simp only [isResultNullSC, getField, Bool.and_eq_true] at h
      obtain ⟨-, h3⟩ := h
      revert h3
      cases hres : getField.lookupField fields "result" with
      | none => simp
      | some r =>
          cases r with
          | obj rf =>
              intro h3
              refine ⟨rf, rfl, rfl, ?_⟩
              simp only [getField, Bool.and_eq_true] at h3
              obtain ⟨-, h4⟩ := h3
              revert h4
              cases hsc : getField.lookupField rf "structuredContent" with
              | none => simp
              | some v => cases v <;> simp
          | null => simp [getField, jsTruthy]
          | bool b => simp [getField, jsTruthy]
          | num n => simp [getField, jsTruthy]
          | str s => simp [getField, jsTruthy]
          | arr xs => simp [getField, jsTruthy]
  | null => simp [isResultNullSC, jsTruthy] at h
  | bool b => simp [isResultNullSC, jsTruthy, getField] at h
  | num n => simp [isResultNullSC, jsTruthy, getField] at h
  | str s => simp [isResultNullSC, jsTruthy, getField] at h
  | arr xs => simp [isResultNullSC, jsTruthy, getField] at h

/-- Explicit form of the rewrite when the guard holds. -/
theorem coerceSC_eq_of (fields rf : List (String × Json))
    (hres : getField.lookupField fields "result" = some (Json.obj rf))
    (hcond : isResultNullSC (Json.obj fields) = true) :
    coerceSC (Json.obj fields) =
      Json.obj (setField fields "result"
        (Json.obj (setField rf "structuredContent" (Json.obj [])))) := by
  rw [coerceSC, if_pos hcond]
  simp [setResultSC, getField, hres]

/-- A `null` at any path other than `["result", "structuredContent"]` is
left untouched by the coercion. -/
theorem getPath_coerceSC_null (m : Json) (p : List String)
    (hp : getPath m p = some Json.null)
    (hne : p ≠ ["result", "structuredContent"]) :
    getPath (coerceSC m) p = some Json.null := by
  by_cases hc : isResultNullSC m = true
  case neg =>
    rw [coerceSC, if_neg hc]
    exact hp
  case pos =>
    obtain ⟨fields, rf, rfl, hres, hsc⟩ := isResultNullSC_shape m hc
    rw [coerceSC_eq_of fields rf hres hc]
    cases p with
    | nil => simp [getPath] at hp
    | cons k ks =>
        by_cases hk : k = "result"
        · subst hk
          simp only [getPath, getField, hres] at hp
          simp only [getPath, getField, lookupField_setField_self]
          cases ks with
          | nil => simp [getPath] at hp
          | cons k2 ks2 =>
              by_cases hk2 : k2 = "structuredContent"
              · subst hk2
                simp only [getPath, getField, hsc] at hp
                cases ks2 with
                | nil => exact absurd rfl hne
                | cons k3 ks3 => simp [getPath, getField] at hp
              · simp only [getPath, getField] at hp ⊢
                rw [lookupField_setField_ne rf k2 "structuredContent" _
                  (fun hh => hk2 hh.symm)]
                exact hp
        · simp only [getPath, getField] at hp ⊢
          rw [lookupField_setField_ne fields k "result" _ (fun hh => hk hh.symm)]
          exact hp

/-- C6: a parsed inbound message has its `result.structuredContent` rewritten
to `{}` if and only if it is a `jsonrpc: "2.0"` message whose `result` object
carries `structuredContent: null`; the rewrite happens before delivery (the
per-line processing hands `coerceSC` of the parsed message to `onmessage`),
and a `null` at any other position of any message is preserved unchanged. -/
theorem c6_theorem (m : Json) :
    (coerceSC m = m ↔ isResultNullSC m = false) ∧
    (isResultNullSC m = true →
      getPath m ["result", "structuredContent"] = some Json.null ∧
      getPath (coerceSC m) ["result", "structuredContent"] = some (Json.obj [])) ∧
    (∀ p, getPath m p = some Json.null → p ≠ ["result", "structuredContent"] →
      getPath (coerceSC m) p = some Json.null) ∧
    (∀ (decode : List Char → Option Json) (l : List Char),
      trimChars l = l → l ≠ [] → decode l = some m →
      processLine decode l = [Ev.msg (coerceSC m)]) := by
  have hpos : isResultNullSC m = true →
      getPath m ["result", "structuredContent"] = some Json.null ∧
      getPath (coerceSC m) ["result", "structuredContent"] = some (Json.obj []) := by
    intro hc
    obtain ⟨fields, rf, rfl, hres, hsc⟩ := isResultNullSC_shape m hc
    constructor
    · simp only [getPath, getField, hres, hsc]
    · rw [coerceSC_eq_of fields rf hres hc]
      simp only [getPath, getField, lookupField_setField_self]
  refine ⟨?_, hpos, getPath_coerceSC_null m, ?_⟩
  · constructor
    · intro heq
      cases hc : isResultNullSC m with
      | false => rfl
      | true =>
          obtain ⟨h1, h2⟩ := hpos hc
          rw [heq, h1] at h2
          simp at h2
    · intro hc
      rw [coerceSC, if_neg (by simp [hc])]
  · intro decode l htrim hne hdec
    rw [processLine, htrim, if_neg hne, hdec]

/-- A child response with `structuredContent: null` inside `result`. -/
def mSC : Json :=
  .obj [("jsonrpc", .str "2.0"), ("id", .num 1),
        ("result", .obj [("structuredContent", .null)])]

theorem c6_witness :
    (isResultNullSC mSC = true) ∧
    getPath (coerceSC mSC) ["result", "structuredContent"] = some (Json.obj []) := by
  exact ⟨rfl, ((c6_theorem mSC).2.1 rfl).2⟩

/-! ## Claim C4 — framing round-trip under arbitrary chunking -/

/-- C4 (amended): feed the transport, in any partition into chunks, the byte
stream obtained by serializing a sequence of JSON messages each followed by
`'\n'` (for any codec on which serialization is newline-free, trim-invariant,
non-empty and inverted by parsing).  The transport delivers exactly that
sequence of parsed messages in order, each passed through the
`structuredContent` null-to-`{}` coercion (so exactly the input sequence
whenever no message is a `result` message with null `structuredContent`), and
the chunk boundaries do not influence the output. -/
theorem c4_theorem (decode : List Char → Option Json) (encode : Json → List Char)
    (ms : List Json) (chunks : List (List Char))
    (hjoin : chunks.flatten = encodeStream encode ms)
    (hnl : ∀ m ∈ ms, '\n' ∉ encode m)
    (htrim : ∀ m ∈ ms, trimChars (encode m) = encode m)
    (hne : ∀ m ∈ ms, encode m ≠ [])
    (hdec : ∀ m ∈ ms, decode (encode m) = some m) :
    feed decode [] chunks = ([], ms.map (fun m => Ev.msg (coerceSC m))) := by
  rw [feed_eq_onData_flatten decode [] (by simp) chunks, hjoin,
      onData_encodeStream decode encode ms hnl htrim hne hdec]

/-- Two plain messages for the chunking witness. -/
def msgA : Json := .obj [("a", .num 1)]

def msgB : Json := .obj [("b", .num 2)]

/-- A partition of `{"a":1}\n{"b":2}\n` that cuts in the middle of the first
message. -/
def chunksAB : List (List Char) :=
  ["\x7b\"a\"".data, ":1\x7d\n\x7b\"b\":2\x7d\n".data]

theorem c4_witness :
    (chunksAB.flatten = encodeStream encodeChars [msgA, msgB]) ∧
    (∀ m ∈ [msgA, msgB], '\n' ∉ encodeChars m) ∧
    (∀ m ∈ [msgA, msgB], trimChars (encodeChars m) = encodeChars m) ∧
    (∀ m ∈ [msgA, msgB], encodeChars m ≠ []) ∧
    (∀ m ∈ [msgA, msgB], decodeJson (encodeChars m) = some m) ∧
    feed decodeJson [] chunksAB =
      ([], [msgA, msgB].map (fun m => Ev.msg (coerceSC m))) := by
  refine ⟨rfl, ?_, ?_, ?_, ?_, ?_⟩
  · intro m hm
    rcases List.mem_cons.mp hm with rfl | hm
    · decide
    rcases List.mem_cons.mp hm with rfl | hm
    · decide
    simp at hm
  · intro m hm
    rcases List.mem_cons.mp hm with rfl | hm
    · rfl
    rcases List.mem_cons.mp hm with rfl | hm
    · rfl
    simp at hm
  · intro m hm
    rcases List.mem_cons.mp hm with rfl | hm
    · decide
    rcases List.mem_cons.mp hm with rfl | hm
    · decide
    simp at hm
  · intro m hm
    rcases List.mem_cons.mp hm with rfl | hm
    · rfl
    rcases List.mem_cons.mp hm with rfl | hm
    · rfl
    simp at hm
  · refine c4_theorem decodeJson encodeChars [msgA, msgB] chunksAB rfl ?_ ?_ ?_ ?_
    · intro m hm
      rcases List.mem_cons.mp hm with rfl | hm
      · decide
      rcases List.mem_cons.mp hm with rfl | hm
      · decide
      simp at hm
    · intro m hm
      rcases List.mem_cons.mp hm with rfl | hm
      · rfl
      rcases List.mem_cons.mp hm with rfl | hm
      · rfl
      simp at hm
    · intro m hm
      rcases List.mem_cons.mp hm with rfl | hm
      · decide
      rcases List.mem_cons.mp hm with rfl | hm
      · decide
      simp at hm
    · intro m hm
      rcases List.mem_cons.mp hm with rfl | hm
      · rfl
      rcases List.mem_cons.mp hm with rfl | hm
      · rfl
      simp at hm

/-- C4 counterexample: a well-formed `result` message carrying
`structuredContent: null` is not delivered as parsed — the transport hands
the coerced message (with `{}` in that position) to `onmessage`, so the
delivered sequence differs from the parsed input sequence. -/
theorem c4_counterexample :
    feed decodeJson [] [encodeChars mSC ++ ['\n']] =
      ([], [Ev.msg (.obj [("jsonrpc", .str "2.0"), ("id", .num 1),
              ("result", .obj [("structuredContent", .obj [])])])]) ∧
    Json.obj [("jsonrpc", .str "2.0"), ("id", .num 1),
              ("result", .obj [("structuredContent", .obj [])])] ≠ mSC := by
  refine ⟨rfl, ?_⟩
  intro h
  have h2 := (Json.obj.injEq _ _).mp h
  have h3 := (List.cons.injEq _ _ _ _).mp h2
  have h4 := (List.cons.injEq _ _ _ _).mp h3.2
  have h5 := (List.cons.injEq _ _ _ _).mp h4.2
  have h6 := (Prod.mk.injEq _ _ _ _).mp h5.1
  have h7 := (Json.obj.injEq _ _).mp h6.2
  have h8 := (List.cons.injEq _ _ _ _).mp h7
  have h9 := (Prod.mk.injEq _ _ _ _).mp h8.1
  cases h9.2

/-! ## Claim C5 — malformed lines do not stop the transport -/

theorem flatMap_processLine_lines (decode : List Char → Option Json)
    (lines : List (List Char))
    (htrim : ∀ l ∈ lines, trimChars l = l)
    (hne : ∀ l ∈ lines, l ≠ []) :
    lines.flatMap (processLine decode) =
      lines.map (fun l =>
        match decode l with
        | some m => Ev.msg (coerceSC m)
        | none => Ev.err l) := by
  induction lines with
  | nil => rfl
  | cons l ls ih =>
      have ih' := ih (fun x hx => htrim x (List.mem_cons_of_mem l hx))
        (fun x hx => hne x (List.mem_cons_of_mem l hx))
      have hl : trimChars l = l := htrim l (List.mem_cons_self l ls)
      have hl2 : l ≠ [] := hne l (List.mem_cons_self l ls)
      simp only [List.flatMap_cons, List.map_cons, ih']
      rw [processLine, hl, if_neg hl2]
      cases decode l <;> rfl

/-- C5: feeding the transport a chunk of newline-terminated lines (each
newline-free, trim-invariant, non-empty) delivers, in order, one `onmessage`
event per well-formed line and one `onerror` event per malformed line; a
malformed line is discarded but every later line — including later lines in
the same chunk — is still parsed and delivered. -/
theorem c5_theorem (decode : List Char → Option Json) (lines : List (List Char))
    (htrim : ∀ l ∈ lines, trimChars l = l)
    (hne : ∀ l ∈ lines, l ≠ [])
    (hnl : ∀ l ∈ lines, '\n' ∉ l) :
    onData decode [] ((lines.map (fun l => l ++ ['\n'])).flatten) =
      ([], lines.map (fun l =>
        match decode l with
        | some m => Ev.msg (coerceSC m)
        | none => Ev.err l)) := by
  rw [onData_lines decode lines hnl, flatMap_processLine_lines decode lines htrim hne]

/-- A chunk holding a good line, a malformed line, then another good line. -/
def linesMixed : List (List Char) :=
  ["\x7b\"a\":1\x7d".data, "\x7bnope".data, "\x7b\"b\":2\x7d".data]

theorem c5_witness :
    (∀ l ∈ linesMixed, trimChars l = l) ∧
    (∀ l ∈ linesMixed, l ≠ []) ∧
    (∀ l ∈ linesMixed, '\n' ∉ l) ∧
    (decodeJson "\x7bnope".data = none) ∧
    onData decodeJson [] ((linesMixed.map (fun l => l ++ ['\n'])).flatten) =
      ([], [Ev.msg msgA, Ev.err "\x7bnope".data, Ev.msg msgB]) := by
  refine ⟨by decide, by decide, by decide, rfl, ?_⟩
  rw [c5_theorem decodeJson linesMixed (by decide) (by decide) (by decide)]
  rfl

end WatsonRouter
